import Mathlib

/-!
Verification of the Catan board generator: a shallow embedding of
`board_generator.py` (class `CatanBoardGenerator`) and proofs of the
specification's claims about it.

Modelling conventions:
- A Python hex dict `{'position': i, 'terrain': t, 'number': n-or-None}`
  becomes the structure `Hex`; a board is a `List Hex`.
- `random.shuffle` is modelled by quantifying over arbitrary permutations
  of the profile's terrain and number pools, and the generation loop over
  an arbitrary stream `cand : Nat -> Board` of sampled candidate boards.
- Python floats are modelled as real numbers (`math.sqrt` as `Real.sqrt`);
  integer-valued quantities stay in `Nat`/`Rat`.
- `self.adjacency.get(pos, [])` becomes the total function `adjacency`
  returning `[]` off the 19 keyed positions.
-/

structure Hex where
  position : Nat
  terrain : String
  number : Option Nat
deriving DecidableEq

abbrev Board := List Hex

/-- The hardcoded neighbour dictionary for the 19-hex base topology;
`adjacency p` models `self.adjacency.get(p, [])`, so unkeyed positions
give the empty list. -/
def adjacency (p : Nat) : List Nat :=
  if p = 0 then [1, 3, 4]
  else if p = 1 then [0, 2, 4, 5]
  else if p = 2 then [1, 5, 6]
  else if p = 3 then [0, 4, 7, 8]
  else if p = 4 then [0, 1, 3, 5, 8, 9]
  else if p = 5 then [1, 2, 4, 6, 9, 10]
  else if p = 6 then [2, 5, 10, 11]
  else if p = 7 then [3, 8, 12]
  else if p = 8 then [3, 4, 7, 9, 12, 13]
  else if p = 9 then [4, 5, 8, 10, 13, 14]
  else if p = 10 then [5, 6, 9, 11, 14, 15]
  else if p = 11 then [6, 10, 15]
  else if p = 12 then [7, 8, 13, 16]
  else if p = 13 then [8, 9, 12, 14, 16, 17]
  else if p = 14 then [9, 10, 13, 15, 17, 18]
  else if p = 15 then [10, 11, 14, 18]
  else if p = 16 then [12, 13, 17]
  else if p = 17 then [13, 14, 16, 18]
  else if p = 18 then [14, 15, 17]
  else []

/-- Terrain pool of the `'base'` expansion (`setup_distribution`). -/
def base_terrains : List String :=
  ["Forest", "Forest", "Forest", "Forest",
   "Pasture", "Pasture", "Pasture", "Pasture",
   "Field", "Field", "Field", "Field",
   "Hill", "Hill", "Hill",
   "Mountain", "Mountain", "Mountain",
   "Desert"]

/-- Number pool of the `'base'` expansion. -/
def base_numbers : List Nat :=
  [2, 3, 3, 4, 4, 5, 5, 6, 6, 8, 8, 9, 9, 10, 10, 11, 11, 12]

/-- Terrain pool of the `'5-6player'` expansion. -/
def player56_terrains : List String :=
  ["Forest", "Forest", "Forest", "Forest", "Forest", "Forest",
   "Pasture", "Pasture", "Pasture", "Pasture", "Pasture", "Pasture",
   "Field", "Field", "Field", "Field", "Field", "Field",
   "Hill", "Hill", "Hill", "Hill", "Hill",
   "Mountain", "Mountain", "Mountain", "Mountain", "Mountain",
   "Desert", "Desert"]

/-- Number pool of the `'5-6player'` expansion. -/
def player56_numbers : List Nat :=
  [2, 2, 3, 3, 3, 4, 4, 4, 5, 5, 5, 6, 6, 6,
   8, 8, 8, 9, 9, 9, 10, 10, 10, 11, 11, 11, 12, 12]

/-- Terrain pool of the `'custom'` expansion. -/
def custom_terrains : List String :=
  ["Forest", "Forest", "Forest",
   "Pasture", "Pasture", "Pasture",
   "Field", "Field", "Field",
   "Hill", "Hill", "Hill",
   "Mountain", "Mountain", "Mountain",
   "Gold", "Gold", "Gold",
   "Desert"]

/-- Number pool of the `'custom'` expansion. -/
def custom_numbers : List Nat :=
  [2, 3, 3, 4, 4, 5, 5, 6, 6, 8, 8, 9, 9, 10, 10, 11, 11, 12]

/-- The three configured profiles, as (terrain pool, number pool) pairs. -/
def profilesList : List (List String × List Nat) :=
  [(base_terrains, base_numbers),
   (player56_terrains, player56_numbers),
   (custom_terrains, custom_numbers)]

/-- `setup_distribution`: the three recognized expansion names set the
terrain and number pools; any other name sets nothing (the source's
`if/elif` chain has no `else`, leaving the generator unconfigured,
modelled as `none`). -/
def setup_distribution (expansion : String) : Option (List String × List Nat) :=
  if expansion = "base" then some (base_terrains, base_numbers)
  else if expansion = "5-6player" then some (player56_terrains, player56_numbers)
  else if expansion = "custom" then some (custom_terrains, custom_numbers)
  else none

/-- `get_pip_count`: `pip_map.get(number, 0)` with `None -> 0`; note the
dict lookup defaults to 0 for any token outside the table. -/
def get_pip_count : Option Nat → Nat
  | none => 0
  | some n =>
    if n = 2 then 1 else if n = 3 then 2 else if n = 4 then 3
    else if n = 5 then 4 else if n = 6 then 5 else if n = 8 then 5
    else if n = 9 then 4 else if n = 10 then 3 else if n = 11 then 2
    else if n = 12 then 1 else 0

/-- Python `h['number'] in [6, 8]`. -/
def isHigh (h : Hex) : Bool :=
  h.number == some 6 || h.number == some 8

/-- The set comprehension of `_check_adjacent_high_numbers`: positions of
hexes whose number token is 6 or 8 (kept as a list; only membership is
used). -/
def highPositions (b : Board) : List Nat :=
  (b.filter isHigh).map Hex.position

/-- `_check_adjacent_high_numbers`: fails when some high position has a
neighbour that is also a high position. -/
def _check_adjacent_high_numbers (b : Board) : Bool :=
  (highPositions b).all fun p =>
    !((adjacency p).any fun q => (highPositions b).contains q)

/-- The fixed edge-position set of `_check_desert_placement`. -/
def edge_positions : List Nat :=
  [0, 1, 2, 3, 6, 7, 11, 12, 16, 17, 18]

/-- `_check_desert_placement`: fails when a Desert hex sits at an edge
position. -/
def _check_desert_placement (b : Board) : Bool :=
  b.all fun h => !(h.terrain == "Desert" && edge_positions.contains h.position)

/-- Both hard constraints, in the order `generate_board` tests them. -/
def validB (b : Board) : Bool :=
  _check_adjacent_high_numbers b && _check_desert_placement b

/-- The inner count of `_score_terrain_clustering`: neighbours of index
`pos` that are in range and carry terrain `t`. -/
def sameTerrainCount (b : Board) (pos : Nat) (t : String) : Nat :=
  ((adjacency pos).filter fun a =>
    match b[a]? with
    | some h2 => h2.terrain == t
    | none => false).length

/-- One iteration of the `_score_terrain_clustering` loop at index `pos`:
Desert hexes are skipped, and a count of same-terrain neighbours below 2
contributes nothing. -/
def clusterContrib (b : Board) (pos : Nat) : Nat :=
  match b[pos]? with
  | none => 0
  | some h =>
    if h.terrain == "Desert" then 0
    else if 2 ≤ sameTerrainCount b pos h.terrain then sameTerrainCount b pos h.terrain
    else 0

/-- `_score_terrain_clustering` (an integer count; the source stores it in
a float). -/
def _score_terrain_clustering (b : Board) : Nat :=
  ((List.range b.length).map (clusterContrib b)).sum

/-- Python truthiness of the `number` field (`if board[adj_pos]['number']`):
`None` and `0` are falsy. -/
def numTruthy : Option Nat → Bool
  | none => false
  | some n => n != 0

/-- One iteration of the `_score_pip_adjacency` loop at index `pos`:
skipped when the number is `None` or its pip count is below 4; otherwise
the count of in-range neighbours with a truthy number of pip count at
least 4. -/
def pipContrib (b : Board) (pos : Nat) : Nat :=
  match b[pos]? with
  | none => 0
  | some h =>
    if h.number = none then 0
    else if get_pip_count h.number < 4 then 0
    else ((adjacency pos).filter fun a =>
      match b[a]? with
      | some h2 => numTruthy h2.number && decide (4 ≤ get_pip_count h2.number)
      | none => false).length

/-- `_score_pip_adjacency`: the doubly-counted pair total divided by 2. -/
def _score_pip_adjacency (b : Board) : ℚ :=
  ((((List.range b.length).map (pipContrib b)).sum : ℚ)) / 2

/-- Insertion of one pip contribution into the `resource_pips` dict:
an existing key is updated in place, a new key is appended (Python dict
insertion order). -/
def dictAdd : List (String × Nat) → String → Nat → List (String × Nat)
  | [], t, p => [(t, p)]
  | (u, v) :: rest, t, p =>
    if u = t then (u, v + p) :: rest else (u, v) :: dictAdd rest t p

/-- The `resource_pips` dict of `_score_resource_balance`: per-terrain
(Desert excluded) sums of pip counts, in first-occurrence order. -/
def resource_pips (b : Board) : List (String × Nat) :=
  b.foldl
    (fun m h =>
      if h.terrain == "Desert" then m
      else dictAdd m h.terrain (get_pip_count h.number))
    []

/-- `_score_resource_balance`: 0 for an empty dict, else the square root
of the population variance of the per-terrain pip totals. -/
noncomputable def _score_resource_balance (b : Board) : ℝ :=
  if resource_pips b = [] then 0
  else
    Real.sqrt
      (((((resource_pips b).map fun p => (p.2 : ℚ)).map fun v =>
          (v - (((resource_pips b).map fun p => (p.2 : ℚ)).sum / ((resource_pips b).length : ℚ))) ^ 2).sum
        / ((resource_pips b).length : ℚ) : ℚ) : ℝ)

/-- `_score_board`: the accumulated weighted sum
`0.0 + clustering*10 + balance*5 + pip_adjacency*3`. -/
noncomputable def _score_board (b : Board) : ℝ :=
  0 + (_score_terrain_clustering b : ℝ) * 10
    + _score_resource_balance b * 5
    + ((_score_pip_adjacency b : ℚ) : ℝ) * 3

/-- Population standard deviation of a list of reals, as the spec words
it (square root of the mean squared deviation from the mean); on `[]`
both divisions are by zero, giving `Real.sqrt 0 = 0`. -/
noncomputable def popStdDev (vals : List ℝ) : ℝ :=
  Real.sqrt ((vals.map fun v => (v - vals.sum / (vals.length : ℝ)) ^ 2).sum / (vals.length : ℝ))

/-- Pip count found at index `pos` of the board (0 off the end). -/
def pipAt (b : Board) (pos : Nat) : Nat :=
  match b[pos]? with
  | none => 0
  | some h => get_pip_count h.number

/-- Ordered adjacent index pairs whose two endpoints both have pip count
at least 4, as the spec words the pip-adjacency penalty (before the
division by 2). -/
def specPipPairs (b : Board) : Nat :=
  ((List.range b.length).map fun pos =>
    ((adjacency pos).filter fun a =>
      decide (a < b.length) && decide (4 ≤ pipAt b pos) && decide (4 ≤ pipAt b a)).length).sum

/-- The loop body of `_generate_candidate_board`: walk the shuffled
terrains with position counter `i` and number cursor `k`; Desert takes no
number and does not advance the cursor. -/
def candidateAux (ns : List Nat) : List String → Nat → Nat → Board
  | [], _, _ => []
  | t :: rest, i, k =>
    if t == "Desert" then ⟨i, t, none⟩ :: candidateAux ns rest (i + 1) k
    else ⟨i, t, ns.get? k⟩ :: candidateAux ns rest (i + 1) (k + 1)

/-- `_generate_candidate_board`, applied to one shuffled terrain list and
one shuffled number list. -/
def _generate_candidate_board (ts : List String) (ns : List Nat) : Board :=
  candidateAux ns ts 0 0

/-- Comparison against `best_score` (initially `float('inf')`): any score
beats an empty best. -/
def beatsBest (s : ℝ) : Option (Board × ℝ) → Prop
  | none => True
  | some p => s < p.2

open Classical in
/-- The attempt loop of `generate_board`, over candidate stream `cand`:
`fuel` is the remaining attempts, `i` the index of the next sample, and
the result is the index after the loop together with the best
(board, score) found, `none` when no candidate passed both checks.
The early break returns as soon as a new best scores under 50. -/
noncomputable def generateAux (cand : Nat → Board) : Nat → Nat → Option (Board × ℝ) → Nat × Option (Board × ℝ)
  | 0, i, best => (i, best)
  | fuel + 1, i, best =>
    if validB (cand i) = true then
      if beatsBest (_score_board (cand i)) best then
        if _score_board (cand i) < 50 then (i + 1, some (cand i, _score_board (cand i)))
        else generateAux cand fuel (i + 1) (some (cand i, _score_board (cand i)))
      else generateAux cand fuel (i + 1) best
    else generateAux cand fuel (i + 1) best

/-- `generate_board`: run the loop from index 0 with no best; the final
`return best_board if best_board else self._generate_candidate_board()`
falls back to one extra fresh sample when `best_board` is falsy
(`None` or the empty list). -/
noncomputable def generate_board (cand : Nat → Board) (maxAttempts : Nat) : Board :=
  match generateAux cand maxAttempts 0 none with
  | (k, some (b, _)) => if b = [] then cand k else b
  | (k, none) => cand k

/-- The returned best of the loop: index `j` was sampled before `k`,
passed both checks, and holds the strict minimum score among the valid
candidates sampled before it and the (non-strict) minimum among all
valid candidates sampled before `k`. -/
def IsBestUpTo (cand : Nat → Board) (j k : Nat) (b : Board) (s : ℝ) : Prop :=
  j < k ∧ b = cand j ∧ s = _score_board (cand j) ∧ validB (cand j) = true ∧
  (∀ i, i < j → validB (cand i) = true → s < _score_board (cand i)) ∧
  (∀ i, i < k → validB (cand i) = true → s ≤ _score_board (cand i))

/-- Loop invariant of `generateAux` at sample index `i`: an empty best
means no valid candidate yet; a recorded best is the running minimum and
scored at least 50 (else the loop would already have stopped). -/
def LoopInv (cand : Nat → Board) (i : Nat) : Option (Board × ℝ) → Prop
  | none => ∀ i2, i2 < i → validB (cand i2) = false
  | some p => 50 ≤ p.2 ∧ ∃ j, IsBestUpTo cand j i p.1 p.2

/-- A concrete single-hex board that passes both hard checks, used to
instantiate the loop theorems. -/
def wboard : Board := [⟨0, "Forest", some 2⟩]

/-- A constant candidate stream returning `wboard`. -/
def wcand : Nat → Board := fun _ => wboard

/-- A concrete board that fails the Desert-placement check (Desert on
edge position 0). -/
def wbad : Board := [⟨0, "Desert", none⟩]

/-- A constant candidate stream returning `wbad`. -/
def wbadCand : Nat → Board := fun _ => wbad

lemma adjacency_eq_nil_of_ge (p : Nat) (hp : 19 ≤ p) : adjacency p = [] := by
  unfold adjacency
  have hne : ∀ c, c < 19 → ¬ p = c := by omega
  rw [if_neg (hne 0 (by norm_num)), if_neg (hne 1 (by norm_num)), if_neg (hne 2 (by norm_num)),
    if_neg (hne 3 (by norm_num)), if_neg (hne 4 (by norm_num)), if_neg (hne 5 (by norm_num)),
    if_neg (hne 6 (by norm_num)), if_neg (hne 7 (by norm_num)), if_neg (hne 8 (by norm_num)),
    if_neg (hne 9 (by norm_num)), if_neg (hne 10 (by norm_num)), if_neg (hne 11 (by norm_num)),
    if_neg (hne 12 (by norm_num)), if_neg (hne 13 (by norm_num)), if_neg (hne 14 (by norm_num)),
    if_neg (hne 15 (by norm_num)), if_neg (hne 16 (by norm_num)), if_neg (hne 17 (by norm_num)),
    if_neg (hne 18 (by norm_num))]

lemma adjacency_mem_lt {p q : Nat} (h : q ∈ adjacency p) : p < 19 ∧ q < 19 := by
  by_cases hp : p < 19
  · refine ⟨hp, ?_⟩
    have hall : ∀ p2, p2 < 19 → ∀ q2 ∈ adjacency p2, q2 < 19 := by decide
    exact hall p hp q h
  · rw [adjacency_eq_nil_of_ge p (by omega)] at h
    exact absurd h (List.not_mem_nil q)

lemma edge_positions_lt (q : Nat) (h : q ∈ edge_positions) : q < 19 := by
  have hall : ∀ q2 ∈ edge_positions, q2 < 19 := by decide
  exact hall q h

/-- C9: the 19-position adjacency graph is symmetric: for positions
`a, b < 19`, `b` is listed among the neighbours of `a` exactly when `a`
is listed among the neighbours of `b`. -/
theorem adjacency_symm (a : Nat) (ha : a < 19) (b : Nat) (hb : b < 19) :
    b ∈ adjacency a ↔ a ∈ adjacency b := by
  have h : ∀ a, a < 19 → ∀ b, b < 19 → (b ∈ adjacency a ↔ a ∈ adjacency b) := by decide
  exact h a ha b hb

/-- C9 witness: symmetry instantiated at the concrete pair (4, 8). -/
theorem adjacency_symm_witness :
    (4 : Nat) < 19 ∧ (8 : Nat) < 19 ∧ (8 ∈ adjacency 4 ↔ 4 ∈ adjacency 8) :=
  ⟨by decide, by decide, adjacency_symm 4 (by decide) 8 (by decide)⟩

lemma isHigh_iff (h : Hex) : isHigh h = true ↔ h.number = some 6 ∨ h.number = some 8 := by
  simp [isHigh]

lemma mem_highPositions (b : Board) (p : Nat) :
    p ∈ highPositions b ↔ ∃ h ∈ b, isHigh h = true ∧ h.position = p := by
  simp [highPositions, List.mem_map, List.mem_filter]
  constructor
  · rintro ⟨h, ⟨hb, hh⟩, hp⟩
    exact ⟨h, hb, hh, hp⟩
  · rintro ⟨h, hb, hh, hp⟩
    exact ⟨h, ⟨hb, hh⟩, hp⟩

lemma check_adjacent_high_numbers_iff (b : Board) :
    _check_adjacent_high_numbers b = true ↔
      ∀ h ∈ b, isHigh h = true → ∀ h2 ∈ b, isHigh h2 = true →
        h2.position ∉ adjacency h.position := by
  unfold _check_adjacent_high_numbers
  rw [List.all_eq_true]
  constructor
  · intro hall h hb hh h2 hb2 hh2 hmem
    have hp : h.position ∈ highPositions b :=
      (mem_highPositions b h.position).mpr ⟨h, hb, hh, rfl⟩
    have := hall h.position hp
    rw [Bool.not_eq_true', ← Bool.not_eq_true, List.any_eq_true] at this
    apply this
    refine ⟨h2.position, hmem, ?_⟩
    simp only [List.contains, List.elem_iff]
    exact (mem_highPositions b h2.position).mpr ⟨h2, hb2, hh2, rfl⟩
  · intro hno p hp
    rw [Bool.not_eq_true', ← Bool.not_eq_true, List.any_eq_true]
    rintro ⟨q, hq, hqmem⟩
    simp only [List.contains, List.elem_iff] at hqmem
    obtain ⟨h, hb, hh, hhp⟩ := (mem_highPositions b p).mp hp
    obtain ⟨h2, hb2, hh2, hh2p⟩ := (mem_highPositions b q).mp hqmem
    exact hno h hb hh h2 hb2 hh2 (by rw [hh2p, hhp]; exact hq)

/-- C4: `_check_adjacent_high_numbers` succeeds exactly when no hex whose
number token is 6 or 8 has, per the adjacency graph, a neighbour position
carried by a hex whose number token is also 6 or 8. -/
theorem check_adjacent_high_numbers_spec (b : Board) :
    _check_adjacent_high_numbers b = true ↔
      ∀ h ∈ b, (h.number = some 6 ∨ h.number = some 8) →
        ∀ h2 ∈ b, (h2.number = some 6 ∨ h2.number = some 8) →
          h2.position ∉ adjacency h.position := by
  rw [check_adjacent_high_numbers_iff]
  constructor
  · intro hk h hb hh h2 hb2 hh2
    exact hk h hb ((isHigh_iff h).mpr hh) h2 hb2 ((isHigh_iff h2).mpr hh2)
  · intro hk h hb hh h2 hb2 hh2
    exact hk h hb ((isHigh_iff h).mp hh) h2 hb2 ((isHigh_iff h2).mp hh2)

lemma check_desert_placement_iff (b : Board) :
    _check_desert_placement b = true ↔
      ∀ h ∈ b, h.terrain = "Desert" → h.position ∉ edge_positions := by
  unfold _check_desert_placement
  rw [List.all_eq_true]
  constructor
  · intro hall h hb ht hmem
    have := hall h hb
    rw [Bool.not_eq_true', Bool.and_eq_false_iff] at this
    rcases this with h1 | h2
    · rw [beq_eq_false_iff_ne] at h1
      exact h1 ht
    · rw [← Bool.not_eq_true, List.contains, List.elem_iff] at h2
      exact h2 hmem
  · intro hno h hb
    rw [Bool.not_eq_true', Bool.and_eq_false_iff]
    by_cases ht : h.terrain = "Desert"
    · right
      rw [← Bool.not_eq_true, List.contains, List.elem_iff]
      exact hno h hb ht
    · left
      rw [beq_eq_false_iff_ne]
      exact ht

/-- C5: `_check_desert_placement` succeeds exactly when no Desert hex
sits at a position of the fixed edge set {0,1,2,3,6,7,11,12,16,17,18}. -/
theorem check_desert_placement_spec (b : Board) :
    _check_desert_placement b = true ↔
      ∀ h ∈ b, h.terrain = "Desert" →
        h.position ∉ ([0, 1, 2, 3, 6, 7, 11, 12, 16, 17, 18] : List Nat) :=
  check_desert_placement_iff b

/-- C7: the source recognizes only the names `'base'`, `'5-6player'` and
`'custom'`; any other expansion name leaves the generator unconfigured
(no terrain or number pools are set) instead of failing fast with an
InvalidConfiguration error at generate entry. -/
theorem setup_distribution_unknown :
    setup_distribution "standard" = none ∧
      ∀ e, setup_distribution e = none ↔ e ∉ (["base", "5-6player", "custom"] : List String) := by
  constructor
  · rfl
  · intro e
    unfold setup_distribution
    split_ifs with h1 h2 h3 <;> simp_all

/-- C8 counterexample: `get_pip_count` does not fail fast on tokens
outside the table; the dict lookup's default makes it return 0 at 7 and
at 13. -/
theorem get_pip_count_out_of_table : get_pip_count (some 7) = 0 ∧ get_pip_count (some 13) = 0 := by
  constructor <;> rfl

/-- C8 (amended): `get_pip_count` follows the standard two-dice table,
maps `None` to 0, and returns 0 (the dict default) for any token outside
the table instead of failing fast. -/
theorem get_pip_count_spec :
    get_pip_count none = 0 ∧
    get_pip_count (some 2) = 1 ∧ get_pip_count (some 12) = 1 ∧
    get_pip_count (some 3) = 2 ∧ get_pip_count (some 11) = 2 ∧
    get_pip_count (some 4) = 3 ∧ get_pip_count (some 10) = 3 ∧
    get_pip_count (some 5) = 4 ∧ get_pip_count (some 9) = 4 ∧
    get_pip_count (some 6) = 5 ∧ get_pip_count (some 8) = 5 ∧
    ∀ n : Nat, n ∉ ([2, 3, 4, 5, 6, 8, 9, 10, 11, 12] : List Nat) →
      get_pip_count (some n) = 0 := by
  refine ⟨rfl, rfl, rfl, rfl, rfl, rfl, rfl, rfl, rfl, rfl, rfl, ?_⟩
  intro n hn
  simp only [List.mem_cons, List.not_mem_nil, or_false] at hn
  push_neg at hn
  simp only [get_pip_count]
  split_ifs <;> omega

lemma candidateAux_map_position (ns : List Nat) :
    ∀ ts i k, (candidateAux ns ts i k).map Hex.position = List.range' i ts.length := by
  intro ts
  induction ts with
  | nil => intro i k; rfl
  | cons t rest ih =>
    intro i k
    by_cases ht : (t == "Desert") = true
    · simp only [candidateAux, if_pos ht, List.map_cons, ih, List.length_cons]
      rfl
    · simp only [candidateAux, if_neg ht, List.map_cons, ih, List.length_cons]
      rfl

lemma candidateAux_map_terrain (ns : List Nat) :
    ∀ ts i k, (candidateAux ns ts i k).map Hex.terrain = ts := by
  intro ts
  induction ts with
  | nil => intro i k; rfl
  | cons t rest ih =>
    intro i k
    by_cases ht : (t == "Desert") = true
    · simp only [candidateAux, if_pos ht, List.map_cons, ih]
    · simp only [candidateAux, if_neg ht, List.map_cons, ih]

lemma candidateAux_desert_none (ns : List Nat) :
    ∀ ts i k, ∀ h ∈ candidateAux ns ts i k, h.terrain = "Desert" → h.number = none := by
  intro ts
  induction ts with
  | nil => intro i k h hmem; exact absurd hmem (List.not_mem_nil h)
  | cons t rest ih =>
    intro i k h hmem hdes
    by_cases ht : (t == "Desert") = true
    · rw [candidateAux, if_pos ht] at hmem
      rcases List.mem_cons.mp hmem with heq | htail
      · rw [heq]
      · exact ih (i + 1) k h htail hdes
    · rw [candidateAux, if_neg ht] at hmem
      rcases List.mem_cons.mp hmem with heq | htail
      · rw [heq] at hdes
        exact absurd hdes (by simpa using ht)
      · exact ih (i + 1) (k + 1) h htail hdes

lemma candidateAux_nondesert_some (ns : List Nat) :
    ∀ ts i k, k + (ts.filter fun t => !(t == "Desert")).length ≤ ns.length →
      ∀ h ∈ candidateAux ns ts i k, ¬ h.terrain = "Desert" → ∃ n, h.number = some n := by
  intro ts
  induction ts with
  | nil => intro i k hlen h hmem; exact absurd hmem (List.not_mem_nil h)
  | cons t rest ih =>
    intro i k hlen h hmem hnd
    by_cases ht : (t == "Desert") = true
    · rw [candidateAux, if_pos ht] at hmem
      rw [List.filter_cons, if_neg (by simp [ht])] at hlen
      rcases List.mem_cons.mp hmem with heq | htail
      · rw [heq] at hnd
        rw [beq_iff_eq] at ht
        exact absurd ht hnd
      · exact ih (i + 1) k hlen h htail hnd
    · rw [candidateAux, if_neg ht] at hmem
      rw [List.filter_cons, if_pos (by simp_all)] at hlen
      simp only [List.length_cons] at hlen
      rcases List.mem_cons.mp hmem with heq | htail
      · have hk : k < ns.length := by omega
        rw [heq]
        exact ⟨ns.get ⟨k, hk⟩, List.get?_eq_get hk⟩
      · exact ih (i + 1) (k + 1) (by omega) h htail hnd

lemma candidateAux_filterMap_number (ns : List Nat) :
    ∀ ts i k, k + (ts.filter fun t => !(t == "Desert")).length ≤ ns.length →
      (candidateAux ns ts i k).filterMap Hex.number
        = (ns.drop k).take (ts.filter fun t => !(t == "Desert")).length := by
  intro ts
  induction ts with
  | nil => intro i k hlen; rfl
  | cons t rest ih =>
    intro i k hlen
    by_cases ht : (t == "Desert") = true
    · rw [List.filter_cons, if_neg (by simp [ht])] at hlen ⊢
      rw [candidateAux, if_pos ht, List.filterMap_cons]
      exact ih (i + 1) k hlen
    · rw [List.filter_cons, if_pos (by simp_all)] at hlen ⊢
      simp only [List.length_cons] at hlen ⊢
      have hk : k < ns.length := by omega
      rw [candidateAux, if_neg ht, List.filterMap_cons]
      simp only [List.get?_eq_get hk]
      rw [ih (i + 1) (k + 1) (by omega)]
      rw [List.drop_eq_getElem_cons hk, List.take_succ_cons]
      rfl

lemma filterMap_number_filter (b : Board)
    (hdes : ∀ h ∈ b, h.terrain = "Desert" → h.number = none) :
    ((b.filter fun h => !(h.terrain == "Desert")).filterMap Hex.number)
      = b.filterMap Hex.number := by
  induction b with
  | nil => rfl
  | cons h rest ih =>
    have hrest : ∀ h2 ∈ rest, h2.terrain = "Desert" → h2.number = none :=
      fun h2 hm => hdes h2 (List.mem_cons_of_mem h hm)
    by_cases ht : h.terrain = "Desert"
    · rw [List.filter_cons, if_neg (by simp [ht])]
      rw [List.filterMap_cons]
      rw [hdes h (List.mem_cons_self h rest) ht]
      exact ih hrest
    · rw [List.filter_cons, if_pos (by simp [ht])]
      rw [List.filterMap_cons, List.filterMap_cons]
      cases hn : h.number with
      | none => exact ih hrest
      | some n => rw [ih hrest]

/-- C2: one `_generate_candidate_board` call on shuffled copies of a
profile's pools yields a board with exactly one hex per position
0..N-1 in order, terrain multiset equal to the profile's terrain pool,
number multiset on non-Desert hexes equal to the profile's number pool,
no number on Desert hexes and exactly one number on each non-Desert
hex. -/
theorem generate_candidate_board_spec
    (tsP : List String) (nsP : List Nat) (hprof : (tsP, nsP) ∈ profilesList)
    (ts : List String) (ns : List Nat) (hts : ts.Perm tsP) (hns : ns.Perm nsP) :
    (_generate_candidate_board ts ns).map Hex.position = List.range tsP.length ∧
    ((_generate_candidate_board ts ns).map Hex.terrain).Perm tsP ∧
    (((_generate_candidate_board ts ns).filter fun h => !(h.terrain == "Desert")).filterMap
        Hex.number).Perm nsP ∧
    (∀ h ∈ _generate_candidate_board ts ns, h.terrain = "Desert" → h.number = none) ∧
    (∀ h ∈ _generate_candidate_board ts ns, ¬ h.terrain = "Desert" → ∃ n, h.number = some n) := by
  have hPcount : (tsP.filter fun t => !(t == "Desert")).length = nsP.length := by
    simp only [profilesList, List.mem_cons, List.not_mem_nil, or_false, Prod.mk.injEq] at hprof
    rcases hprof with ⟨h1, h2⟩ | ⟨h1, h2⟩ | ⟨h1, h2⟩ <;> rw [h1, h2] <;> decide
  have hcount : (ts.filter fun t => !(t == "Desert")).length = ns.length := by
    rw [(hts.filter fun t => !(t == "Desert")).length_eq, hns.length_eq, hPcount]
  have hlen : 0 + (ts.filter fun t => !(t == "Desert")).length ≤ ns.length := by omega
  have hdes := candidateAux_desert_none ns ts 0 0
  simp only [_generate_candidate_board]
  refine ⟨?_, ?_, ?_, hdes, candidateAux_nondesert_some ns ts 0 0 hlen⟩
  · rw [candidateAux_map_position ns ts 0 0, hts.length_eq, List.range_eq_range']
  · rw [candidateAux_map_terrain ns ts 0 0]
    exact hts
  · rw [filterMap_number_filter _ hdes,
      candidateAux_filterMap_number ns ts 0 0 hlen, List.drop_zero, hcount, List.take_length]
    exact hns

/-- C2 witness: the claim instantiated at the base profile with the
identity shuffles. -/
theorem generate_candidate_board_spec_witness :
    ((base_terrains, base_numbers) ∈ profilesList) ∧
    ((_generate_candidate_board base_terrains base_numbers).map Hex.position
        = List.range base_terrains.length ∧
      ((_generate_candidate_board base_terrains base_numbers).map Hex.terrain).Perm
        base_terrains ∧
      (((_generate_candidate_board base_terrains base_numbers).filter fun h =>
          !(h.terrain == "Desert")).filterMap Hex.number).Perm base_numbers ∧
      (∀ h ∈ _generate_candidate_board base_terrains base_numbers,
        h.terrain = "Desert" → h.number = none) ∧
      (∀ h ∈ _generate_candidate_board base_terrains base_numbers,
        ¬ h.terrain = "Desert" → ∃ n, h.number = some n)) :=
  ⟨List.mem_cons_self _ _,
    generate_candidate_board_spec base_terrains base_numbers (List.mem_cons_self _ _)
      base_terrains base_numbers (List.Perm.refl _) (List.Perm.refl _)⟩

lemma sameTerrainCount_eq_zero_of_ge (b : Board) (pos : Nat) (t : String) (hpos : 19 ≤ pos) :
    sameTerrainCount b pos t = 0 := by
  unfold sameTerrainCount
  rw [adjacency_eq_nil_of_ge pos hpos]
  rfl

lemma clusterContrib_eq_zero_of_ge (b : Board) (pos : Nat) (hpos : 19 ≤ pos) :
    clusterContrib b pos = 0 := by
  rcases hg : b[pos]? with _ | h
  · simp [clusterContrib, hg]
  · simp [clusterContrib, hg, sameTerrainCount_eq_zero_of_ge b pos h.terrain hpos]

lemma pipContrib_eq_zero_of_ge (b : Board) (pos : Nat) (hpos : 19 ≤ pos) :
    pipContrib b pos = 0 := by
  rcases hg : b[pos]? with _ | h
  · simp [pipContrib, hg]
  · simp only [pipContrib, hg, adjacency_eq_nil_of_ge pos hpos, List.filter_nil,
      List.length_nil]
    split_ifs <;> rfl

lemma sameTerrainCount_take (b : Board) (pos : Nat) (t : String) :
    sameTerrainCount (b.take 19) pos t = sameTerrainCount b pos t := by
  unfold sameTerrainCount
  congr 1
  apply List.filter_congr
  intro a ha
  rw [List.getElem?_take_of_lt (adjacency_mem_lt ha).2]

lemma clusterContrib_take (b : Board) (pos : Nat) (hpos : pos < 19) :
    clusterContrib (b.take 19) pos = clusterContrib b pos := by
  rcases hg : b[pos]? with _ | h
  · simp [clusterContrib, List.getElem?_take_of_lt hpos, hg]
  · simp [clusterContrib, List.getElem?_take_of_lt hpos, hg, sameTerrainCount_take b pos]

lemma pipContrib_take (b : Board) (pos : Nat) (hpos : pos < 19) :
    pipContrib (b.take 19) pos = pipContrib b pos := by
  rcases hg : b[pos]? with _ | h
  · simp [pipContrib, List.getElem?_take_of_lt hpos, hg]
  · simp only [pipContrib, List.getElem?_take_of_lt hpos, hg]
    split_ifs <;> try rfl
    congr 1
    apply List.filter_congr
    intro a ha
    rw [List.getElem?_take_of_lt (adjacency_mem_lt ha).2]

lemma score_terrain_clustering_take (b : Board) :
    _score_terrain_clustering b = _score_terrain_clustering (b.take 19) := by
  by_cases hlen : b.length ≤ 19
  · rw [List.take_of_length_le hlen]
  · push_neg at hlen
    unfold _score_terrain_clustering
    have hlt : (b.take 19).length = 19 := by
      rw [List.length_take]
      omega
    rw [hlt]
    have hsplit : b.length = 19 + (b.length - 19) := by omega
    rw [hsplit, List.range_add, List.map_append, List.sum_append, List.map_map]
    have hz : (((List.range (b.length - 19)).map (clusterContrib b ∘ fun x => 19 + x))).sum = 0 := by
      apply List.sum_eq_zero
      intro x hx
      obtain ⟨y, hy, rfl⟩ := List.mem_map.mp hx
      exact clusterContrib_eq_zero_of_ge b (19 + y) (by omega)
    rw [hz, add_zero]
    apply congrArg List.sum
    exact List.map_congr_left fun a ha => (clusterContrib_take b a (List.mem_range.mp ha)).symm

lemma pip_sum_take (b : Board) :
    ((List.range b.length).map (pipContrib b)).sum
      = ((List.range (b.take 19).length).map (pipContrib (b.take 19))).sum := by
  by_cases hlen : b.length ≤ 19
  · rw [List.take_of_length_le hlen]
  · push_neg at hlen
    have hlt : (b.take 19).length = 19 := by
      rw [List.length_take]
      omega
    rw [hlt]
    have hsplit : b.length = 19 + (b.length - 19) := by omega
    rw [hsplit, List.range_add, List.map_append, List.sum_append, List.map_map]
    have hz : (((List.range (b.length - 19)).map (pipContrib b ∘ fun x => 19 + x))).sum = 0 := by
      apply List.sum_eq_zero
      intro x hx
      obtain ⟨y, hy, rfl⟩ := List.mem_map.mp hx
      exact pipContrib_eq_zero_of_ge b (19 + y) (by omega)
    rw [hz, add_zero]
    apply congrArg List.sum
    exact List.map_congr_left fun a ha => (pipContrib_take b a (List.mem_range.mp ha)).symm

lemma score_pip_adjacency_take (b : Board) :
    _score_pip_adjacency b = _score_pip_adjacency (b.take 19) := by
  unfold _score_pip_adjacency
  rw [pip_sum_take b]

lemma check_adjacent_high_numbers_filter (b : Board) :
    _check_adjacent_high_numbers b
      = _check_adjacent_high_numbers (b.filter fun h => decide (h.position < 19)) := by
  rw [Bool.eq_iff_iff, check_adjacent_high_numbers_iff,
    check_adjacent_high_numbers_iff]
  constructor
  · intro hk h hm hh h2 hm2 hh2
    exact hk h (List.mem_filter.mp hm).1 hh h2 (List.mem_filter.mp hm2).1 hh2
  · intro hk h hm hh h2 hm2 hh2 hadj
    have hlt := adjacency_mem_lt hadj
    have hm' : h ∈ b.filter fun h3 => decide (h3.position < 19) :=
      List.mem_filter.mpr ⟨hm, by simpa using hlt.1⟩
    have hm2' : h2 ∈ b.filter fun h3 => decide (h3.position < 19) :=
      List.mem_filter.mpr ⟨hm2, by simpa using hlt.2⟩
    exact hk h hm' hh h2 hm2' hh2 hadj

lemma check_desert_placement_filter (b : Board) :
    _check_desert_placement b
      = _check_desert_placement (b.filter fun h => decide (h.position < 19)) := by
  rw [Bool.eq_iff_iff, check_desert_placement_iff, check_desert_placement_iff]
  constructor
  · intro hk h hm
    exact hk h (List.mem_filter.mp hm).1
  · intro hk h hm ht hmem
    have hlt := edge_positions_lt h.position hmem
    have hm' : h ∈ b.filter fun h3 => decide (h3.position < 19) :=
      List.mem_filter.mpr ⟨hm, by simpa using hlt⟩
    exact hk h hm' ht hmem

/-- C10: positions outside 0..18 have no adjacency entry, so the graph
lookup returns `[]` instead of failing; all adjacency list entries lie in
0..18; consequently both hard checks ignore hexes whose position is 19 or
more, and the clustering and pip-adjacency penalties are unchanged when
the board is truncated to its first 19 indices (indices 19..29 of a
30-hex board contribute to no pair). -/
theorem adjacency_default_spec :
    (∀ p, 19 ≤ p → adjacency p = []) ∧
    (∀ p q, q ∈ adjacency p → p < 19 ∧ q < 19) ∧
    (∀ b : Board, _check_adjacent_high_numbers b
        = _check_adjacent_high_numbers (b.filter fun h => decide (h.position < 19))) ∧
    (∀ b : Board, _check_desert_placement b
        = _check_desert_placement (b.filter fun h => decide (h.position < 19))) ∧
    (∀ b : Board, _score_terrain_clustering b = _score_terrain_clustering (b.take 19)) ∧
    (∀ b : Board, _score_pip_adjacency b = _score_pip_adjacency (b.take 19)) :=
  ⟨adjacency_eq_nil_of_ge, fun _ _ h => adjacency_mem_lt h,
    check_adjacent_high_numbers_filter, check_desert_placement_filter,
    score_terrain_clustering_take, score_pip_adjacency_take⟩

lemma numTruthy_of_pip_ge (o : Option Nat) (h4 : 4 ≤ get_pip_count o) : numTruthy o = true := by
  rcases o with _ | n
  · simp [get_pip_count] at h4
  · simp only [get_pip_count] at h4
    simp only [numTruthy, bne_iff_ne, ne_eq]
    split_ifs at h4 <;> omega

lemma sum_natCast (m : List (String × Nat)) :
    (((m.map fun p => (p.2 : ℚ)).sum : ℚ) : ℝ) = (m.map fun p => (p.2 : ℝ)).sum := by
  induction m with
  | nil => simp
  | cons p rest ih => simp [Rat.cast_add, ih]

lemma sum_sq_dev_cast (m : List (String × Nat)) (c : ℚ) :
    (((m.map fun p => ((p.2 : ℚ) - c) ^ 2).sum : ℚ) : ℝ)
      = (m.map fun p => ((p.2 : ℝ) - (c : ℝ)) ^ 2).sum := by
  induction m with
  | nil => simp
  | cons p rest ih =>
    simp only [List.map_cons, List.sum_cons, Rat.cast_add, ih]
    push_cast
    ring

lemma variance_cast (m : List (String × Nat)) :
    ((((m.map fun p => (p.2 : ℚ)).map fun v =>
        (v - ((m.map fun p => (p.2 : ℚ)).sum / (m.length : ℚ))) ^ 2).sum / (m.length : ℚ) : ℚ) : ℝ)
      = ((m.map fun p => (p.2 : ℝ)).map fun v =>
          (v - ((m.map fun p => (p.2 : ℝ)).sum
            / (((m.map fun p => (p.2 : ℝ)).length : ℕ) : ℝ))) ^ 2).sum
        / (((m.map fun p => (p.2 : ℝ)).length : ℕ) : ℝ) := by
  have havg : ((((m.map fun p => (p.2 : ℚ)).sum / (m.length : ℚ)) : ℚ) : ℝ)
      = (m.map fun p => (p.2 : ℝ)).sum / (m.length : ℝ) := by
    rw [Rat.cast_div, sum_natCast, Rat.cast_natCast]
  rw [Rat.cast_div, Rat.cast_natCast, List.length_map]
  congr 1
  rw [List.map_map, List.map_map]
  have hL : ((fun v => (v - ((m.map fun p => (p.2 : ℚ)).sum / (m.length : ℚ))) ^ 2)
        ∘ fun p => ((p.2 : ℕ) : ℚ))
      = fun p : String × Nat =>
          ((p.2 : ℚ) - ((m.map fun p => (p.2 : ℚ)).sum / (m.length : ℚ))) ^ 2 := rfl
  have hR : ((fun v => (v - ((m.map fun p => (p.2 : ℝ)).sum / (m.length : ℝ))) ^ 2)
        ∘ fun p => ((p.2 : ℕ) : ℝ))
      = fun p : String × Nat =>
          ((p.2 : ℝ) - ((m.map fun p => (p.2 : ℝ)).sum / (m.length : ℝ))) ^ 2 := rfl
  rw [hL, hR, sum_sq_dev_cast m, havg]

/-- The code's rational population variance, cast to the reals, is the
spec's population variance of the cast pip totals. -/
lemma balance_eq_popStdDev (b : Board) :
    _score_resource_balance b = popStdDev ((resource_pips b).map fun p => (p.2 : ℝ)) := by
  unfold _score_resource_balance popStdDev
  by_cases hm : resource_pips b = []
  · rw [if_pos hm, hm]
    simp
  · rw [if_neg hm]
    exact congrArg Real.sqrt (variance_cast (resource_pips b))

lemma pipContrib_eq_spec (b : Board) (pos : Nat) (hpos : pos < b.length) :
    pipContrib b pos
      = ((adjacency pos).filter fun a =>
          decide (a < b.length) && decide (4 ≤ pipAt b pos) && decide (4 ≤ pipAt b a)).length := by
  have hg : b[pos]? = some b[pos] := List.getElem?_eq_getElem hpos
  simp only [pipContrib, hg]
  have hpa : pipAt b pos = get_pip_count b[pos].number := by
    simp [pipAt, hg]
  by_cases hn : b[pos].number = none
  · rw [if_pos hn]
    have : pipAt b pos = 0 := by rw [hpa, hn]; rfl
    rw [List.filter_eq_nil.mpr ?_, List.length_nil]
    intro a ha
    simp [this]
  · rw [if_neg hn]
    by_cases h4 : get_pip_count b[pos].number < 4
    · rw [if_pos h4]
      rw [List.filter_eq_nil.mpr ?_, List.length_nil]
      intro a ha
      simp [hpa]
      omega
    · rw [if_neg h4]
      congr 1
      apply List.filter_congr
      intro a ha
      rcases hga : b[a]? with _ | h2
      · have hlen : b.length ≤ a := by
          by_contra hcon
          push_neg at hcon
          rw [List.getElem?_eq_getElem hcon] at hga
          exact Option.noConfusion hga
        simp [hga]
        omega
      · have halen : a < b.length := by
          by_contra hcon
          push_neg at hcon
          rw [List.getElem?_eq_none hcon] at hga
          exact Option.noConfusion hga
        have hpa2 : pipAt b a = get_pip_count h2.number := by
          simp [pipAt, hga]
        by_cases h42 : 4 ≤ get_pip_count h2.number
        · simp [hga, numTruthy_of_pip_ge h2.number h42, h42, halen, hpa, hpa2]
          omega
        · simp [hga, h42, hpa2]

lemma score_pip_adjacency_eq_spec (b : Board) :
    _score_pip_adjacency b = (specPipPairs b : ℚ) / 2 := by
  unfold _score_pip_adjacency specPipPairs
  congr 2
  exact congrArg List.sum
    (List.map_congr_left fun pos hpos => pipContrib_eq_spec b pos (List.mem_range.mp hpos))

lemma score_resource_balance_nonneg (b : Board) : 0 ≤ _score_resource_balance b := by
  unfold _score_resource_balance
  split_ifs
  · exact le_refl 0
  · exact Real.sqrt_nonneg _

/-- C3: the board score is the weighted sum 10 times the clustering
penalty plus 5 times the population standard deviation of the
per-terrain (Desert excluded) pip totals plus 3 times the halved count
of ordered adjacent pairs with both pip weights at least 4, and it is
never negative. -/
theorem score_board_spec (b : Board) :
    _score_board b
        = 10 * (_score_terrain_clustering b : ℝ)
          + 5 * popStdDev ((resource_pips b).map fun p => (p.2 : ℝ))
          + 3 * ((specPipPairs b : ℝ) / 2) ∧
    0 ≤ _score_board b := by
  have hpip : ((_score_pip_adjacency b : ℚ) : ℝ) = (specPipPairs b : ℝ) / 2 := by
    rw [score_pip_adjacency_eq_spec b]
    push_cast
    ring
  constructor
  · rw [_score_board, balance_eq_popStdDev b, hpip]
    ring
  · rw [_score_board]
    have h1 : (0 : ℝ) ≤ (_score_terrain_clustering b : ℝ) * 10 := by positivity
    have h2 : (0 : ℝ) ≤ _score_resource_balance b * 5 := by
      have := score_resource_balance_nonneg b
      linarith
    have h3 : (0 : ℝ) ≤ ((_score_pip_adjacency b : ℚ) : ℝ) * 3 := by
      rw [hpip]
      positivity
    linarith

lemma generateAux_zero (cand : Nat → Board) (i : Nat) (best : Option (Board × ℝ)) :
    generateAux cand 0 i best = (i, best) := rfl

open Classical in
lemma generateAux_succ (cand : Nat → Board) (fuel i : Nat) (best : Option (Board × ℝ)) :
    generateAux cand (fuel + 1) i best =
      if validB (cand i) = true then
        if beatsBest (_score_board (cand i)) best then
          if _score_board (cand i) < 50 then (i + 1, some (cand i, _score_board (cand i)))
          else generateAux cand fuel (i + 1) (some (cand i, _score_board (cand i)))
        else generateAux cand fuel (i + 1) best
      else generateAux cand fuel (i + 1) best := rfl

lemma generateAux_all_invalid (cand : Nat → Board) :
    ∀ fuel i, (∀ i2, i ≤ i2 → i2 < i + fuel → validB (cand i2) = false) →
      generateAux cand fuel i none = (i + fuel, none) := by
  intro fuel
  induction fuel with
  | zero => intro i h; rfl
  | succ fuel ih =>
    intro i h
    have hv : validB (cand i) = false := h i (le_refl i) (by omega)
    rw [generateAux_succ, if_neg (by simp [hv]),
      ih (i + 1) fun i2 h1 h2 => h i2 (by omega) (by omega)]
    have harith : i + 1 + fuel = i + (fuel + 1) := by omega
    rw [harith]

lemma IsBestUpTo_extend (cand : Nat → Board) (j k : Nat) (b : Board) (s : ℝ)
    (h : IsBestUpTo cand j k b s)
    (hnext : validB (cand k) = true → s ≤ _score_board (cand k)) :
    IsBestUpTo cand j (k + 1) b s := by
  obtain ⟨h1, h2, h3, h4, h5, h6⟩ := h
  refine ⟨by omega, h2, h3, h4, h5, fun i2 hi2 hv => ?_⟩
  rcases Nat.lt_succ_iff_lt_or_eq.mp hi2 with hlt | heq
  · exact h6 i2 hlt hv
  · subst heq
    exact hnext hv

lemma IsBestUpTo_new (cand : Nat → Board) (i : Nat) (hv : validB (cand i) = true)
    (hprev : ∀ i2, i2 < i → validB (cand i2) = true →
      _score_board (cand i) < _score_board (cand i2)) :
    IsBestUpTo cand i (i + 1) (cand i) (_score_board (cand i)) := by
  refine ⟨Nat.lt_succ_self i, rfl, rfl, hv, hprev, fun i2 hi2 hv2 => ?_⟩
  rcases Nat.lt_succ_iff_lt_or_eq.mp hi2 with hlt | heq
  · exact le_of_lt (hprev i2 hlt hv2)
  · subst heq
    exact le_refl _

lemma beats_strict_prev (cand : Nat → Board) (i : Nat) (best : Option (Board × ℝ))
    (hinv : LoopInv cand i best) (hb : beatsBest (_score_board (cand i)) best) :
    ∀ i2, i2 < i → validB (cand i2) = true →
      _score_board (cand i) < _score_board (cand i2) := by
  intro i2 hi2 hv2
  rcases best with _ | p
  · simp only [LoopInv] at hinv
    rw [hinv i2 hi2] at hv2
    exact Bool.noConfusion hv2
  · simp only [LoopInv] at hinv
    obtain ⟨h50, j1, hbu⟩ := hinv
    simp only [beatsBest] at hb
    exact lt_of_lt_of_le hb (hbu.2.2.2.2.2 i2 hi2 hv2)

lemma generateAux_some_spec (cand : Nat → Board) :
    ∀ fuel i best k b s, LoopInv cand i best →
      generateAux cand fuel i best = (k, some (b, s)) →
      ∃ j, IsBestUpTo cand j k b s ∧ k ≤ i + fuel ∧
        (s < 50 → k = j + 1) ∧ (50 ≤ s → k = i + fuel) := by
  intro fuel
  induction fuel with
  | zero =>
    intro i best k b s hinv hrun
    rw [generateAux_zero] at hrun
    have hk : i = k := congrArg Prod.fst hrun
    have hbest : best = some (b, s) := congrArg Prod.snd hrun
    subst hbest
    subst hk
    simp only [LoopInv] at hinv
    obtain ⟨h50, j, hbu⟩ := hinv
    exact ⟨j, hbu, by omega, fun hlt => absurd h50 (by linarith), fun _ => by omega⟩
  | succ fuel ih =>
    intro i best k b s hinv hrun
    rw [generateAux_succ] at hrun
    by_cases hv : validB (cand i) = true
    · rw [if_pos hv] at hrun
      by_cases hbb : beatsBest (_score_board (cand i)) best
      · rw [if_pos hbb] at hrun
        have hprev := beats_strict_prev cand i best hinv hbb
        by_cases h50 : _score_board (cand i) < 50
        · rw [if_pos h50] at hrun
          have hk : i + 1 = k := congrArg Prod.fst hrun
          have hbs : some (cand i, _score_board (cand i)) = some (b, s) :=
            congrArg Prod.snd hrun
          have hcb : cand i = b := congrArg Prod.fst (Option.some.inj hbs)
          have hcs : _score_board (cand i) = s := congrArg Prod.snd (Option.some.inj hbs)
          subst hk
          subst hcb
          subst hcs
          exact ⟨i, IsBestUpTo_new cand i hv hprev, by omega, fun _ => rfl,
            fun hge => absurd h50 (by linarith)⟩
        · rw [if_neg h50] at hrun
          push_neg at h50
          have hinv2 : LoopInv cand (i + 1) (some (cand i, _score_board (cand i))) := by
            simp only [LoopInv]
            exact ⟨h50, i, IsBestUpTo_new cand i hv hprev⟩
          obtain ⟨j, hbu, hk, hA, hB⟩ :=
            ih (i + 1) (some (cand i, _score_board (cand i))) k b s hinv2 hrun
          exact ⟨j, hbu, by omega, hA, fun hge => by have := hB hge; omega⟩
      · rw [if_neg hbb] at hrun
        rcases best with _ | p
        · exact absurd trivial hbb
        · obtain ⟨b1, s1⟩ := p
          simp only [LoopInv] at hinv
          obtain ⟨h50, j1, hbu1⟩ := hinv
          simp only [beatsBest, not_lt] at hbb
          have hinv2 : LoopInv cand (i + 1) (some (b1, s1)) := by
            simp only [LoopInv]
            exact ⟨h50, j1, IsBestUpTo_extend cand j1 i b1 s1 hbu1 fun _ => hbb⟩
          obtain ⟨j, hbu, hk, hA, hB⟩ := ih (i + 1) (some (b1, s1)) k b s hinv2 hrun
          exact ⟨j, hbu, by omega, hA, fun hge => by have := hB hge; omega⟩
    · rw [if_neg hv] at hrun
      have hvf : validB (cand i) = false := by
        rcases Bool.dichotomy (validB (cand i)) with h | h
        · exact h
        · exact absurd h hv
      have hinv2 : LoopInv cand (i + 1) best := by
        rcases best with _ | p
        · simp only [LoopInv] at hinv ⊢
          intro i2 hi2
          rcases Nat.lt_succ_iff_lt_or_eq.mp hi2 with hlt | heq
          · exact hinv i2 hlt
          · subst heq
            exact hvf
        · obtain ⟨b1, s1⟩ := p
          simp only [LoopInv] at hinv ⊢
          obtain ⟨h50, j1, hbu1⟩ := hinv
          exact ⟨h50, j1, IsBestUpTo_extend cand j1 i b1 s1 hbu1
            fun hvt => absurd hvt (by simp [hvf])⟩
      obtain ⟨j, hbu, hk, hA, hB⟩ := ih (i + 1) best k b s hinv2 hrun
      exact ⟨j, hbu, by omega, hA, fun hge => by have := hB hge; omega⟩

/-- C1: whenever the attempt loop ends holding a best candidate (the
validated, non-fallback path) and that board is non-empty, `generate_board`
returns it; it passes both hard constraints, and it is the first-sampled
candidate attaining the minimum score among the valid candidates sampled
during the loop: every earlier valid candidate scores strictly higher
(ties keep the earlier candidate), every valid candidate sampled before
the loop ended scores at least as high, the loop stops immediately after
recording a best scoring under 50, and otherwise runs all `maxAttempts`
iterations. -/
theorem generate_board_validated (cand : Nat → Board) (maxAttempts : Nat)
    (hmax : 1 ≤ maxAttempts) (k : Nat) (b : Board) (s : ℝ)
    (hrun : generateAux cand maxAttempts 0 none = (k, some (b, s)))
    (hb : b ≠ []) :
    generate_board cand maxAttempts = b ∧
    _check_adjacent_high_numbers b = true ∧
    _check_desert_placement b = true ∧
    ∃ j, j < k ∧ k ≤ maxAttempts ∧ b = cand j ∧ s = _score_board (cand j) ∧
      (∀ i, i < j → validB (cand i) = true → s < _score_board (cand i)) ∧
      (∀ i, i < k → validB (cand i) = true → s ≤ _score_board (cand i)) ∧
      (s < 50 → k = j + 1) ∧ (50 ≤ s → k = maxAttempts) := by
  have hinv : LoopInv cand 0 none := by
    simp only [LoopInv]
    intro i2 h2
    omega
  obtain ⟨j, hbu, hk, h50a, h50b⟩ :=
    generateAux_some_spec cand maxAttempts 0 none k b s hinv hrun
  obtain ⟨hjk, hbj, hsj, hvj, hstrict, hmin⟩ := hbu
  have hvb : validB b = true := by rw [hbj]; exact hvj
  rw [validB, Bool.and_eq_true] at hvb
  have hgen : generate_board cand maxAttempts = b := by
    unfold generate_board
    rw [hrun]
    simp [hb]
  exact ⟨hgen, hvb.1, hvb.2, j, hjk, by omega, hbj, hsj, hstrict, hmin, h50a,
    fun hge => by have := h50b hge; omega⟩

lemma wboard_cluster : _score_terrain_clustering wboard = 0 := by decide

lemma wboard_pip_sum : ((List.range wboard.length).map (pipContrib wboard)).sum = 0 := by decide

lemma wboard_resource_pips : resource_pips wboard = [("Forest", 1)] := by decide

lemma wboard_balance : _score_resource_balance wboard = 0 := by
  unfold _score_resource_balance
  rw [wboard_resource_pips, if_neg (by simp)]
  convert Real.sqrt_zero using 2
  norm_cast
  simp

lemma wboard_score : _score_board wboard = 0 := by
  unfold _score_board _score_pip_adjacency
  rw [wboard_cluster, wboard_balance, wboard_pip_sum]
  norm_num

lemma wboard_run :
    generateAux wcand 1 0 none = (1, some (wboard, _score_board wboard)) := by
  classical
  have h1 : generateAux wcand 1 0 none =
      if validB wboard = true then
        if beatsBest (_score_board wboard) none then
          if _score_board wboard < 50 then (0 + 1, some (wboard, _score_board wboard))
          else generateAux wcand 0 (0 + 1) (some (wboard, _score_board wboard))
        else generateAux wcand 0 (0 + 1) none
      else generateAux wcand 0 (0 + 1) none :=
    generateAux_succ wcand 0 0 none
  rw [h1, if_pos (by decide : validB wboard = true),
    if_pos (show beatsBest (_score_board wboard) none by trivial),
    if_pos (show _score_board wboard < 50 by rw [wboard_score]; norm_num)]

/-- C1 witness: a constant stream of one valid single-hex board with one
attempt allowed; the loop records it, exits early, and `generate_board`
returns it. -/
theorem generate_board_validated_witness :
    generateAux wcand 1 0 none = (1, some (wboard, _score_board wboard)) ∧
    wboard ≠ [] ∧
    generate_board wcand 1 = wboard :=
  ⟨wboard_run, by simp [wboard],
    (generate_board_validated wcand 1 (le_refl 1) 1 wboard (_score_board wboard)
      wboard_run (by simp [wboard])).1⟩

/-- C6: when no sampled candidate within the attempt budget passes both
hard constraints, the loop ends with no best candidate and
`generate_board` returns, without failing, the one extra freshly sampled
candidate (sample index `maxAttempts`), unscored and unvalidated. -/
theorem generate_board_fallback (cand : Nat → Board) (maxAttempts : Nat)
    (hnone : ∀ i, i < maxAttempts → validB (cand i) = false) :
    generateAux cand maxAttempts 0 none = (maxAttempts, none) ∧
    generate_board cand maxAttempts = cand maxAttempts := by
  have h := generateAux_all_invalid cand maxAttempts 0 fun i2 h1 h2 => hnone i2 (by omega)
  rw [zero_add] at h
  refine ⟨h, ?_⟩
  unfold generate_board
  rw [h]

/-- C6 witness: a stream of constraint-violating boards (Desert on the
edge) exhausts two attempts and falls back to the extra sample, which
itself still violates the hard constraints. -/
theorem generate_board_fallback_witness :
    (∀ i, i < 2 → validB (wbadCand i) = false) ∧
    generateAux wbadCand 2 0 none = (2, none) ∧
    generate_board wbadCand 2 = wbadCand 2 ∧
    validB (generate_board wbadCand 2) = false := by
  have h : ∀ i, i < 2 → validB (wbadCand i) = false :=
    fun i _ => (by decide : validB wbad = false)
  obtain ⟨h1, h2⟩ := generate_board_fallback wbadCand 2 h
  refine ⟨h, h1, h2, ?_⟩
  rw [h2]
  decide
